import Mathlib

/-!
Shallow embedding of `src/polymorphic_value.h` (class `stdx::polymorphic_value`).

The C++ class stores one object of a polymorphic base type `T` (or a subtype)
either inline in a byte buffer (small-buffer optimization) or behind a single
`unique_ptr` heap allocation.  A stateless per-concrete-type handler (vtable
object placement-newed into `m_handler`) dispatches `get` / `copy` / `move` /
`destroy` / `imbue_handler`.

Modelling choices:
* C++ types are type ids (`Nat`) mapped by a `TypeEnv` to their size,
  alignment and copy/move-constructibility; `isBaseOf b d` models
  `is_base_of_v<b, d>` and drives `dynamic_cast`.
* A stored object (`HObj`) carries a unique identity `id` (to speak about
  "the same constructed object" across destroy events), its dynamic type
  `dyn`, and its data payload `val` (field contents, for field-wise equality).
* The untagged union `data` becomes a record with both alternatives
  (`bytesObj` for the inline byte region, `ptrAddr` for `m_ptr`); exactly as
  in the source, which alternative is meaningful is decided by the installed
  handler, never by the cell itself.  `bytesObj = none` models an
  uninitialized/destroyed byte region, `ptrAddr = none` a null `unique_ptr`.
* The heap is a function `Nat → Option HObj` plus a bump allocator bound
  `hsize`; `make_unique` allocates at the fresh address `hsize`.
* `Mem.destroyed` logs the identity of every object whose destructor ran
  (`destroy_at` on the inline region or `unique_ptr` release), so that
  "destroy is never invoked twice on the same constructed object" is the
  statement that this log has no duplicates.
* C++ undefined behaviour (destroying or copying from an uninitialized cell,
  dereferencing a dangling address) is modelled as a no-op; those situations
  are outside the well-formed states characterized by `wfPV` below.
-/

namespace PolyVal

/-- Identifier of a C++ class type. -/
abbrev TypeId := Nat

/-- Compile-time properties of one C++ class type: `sizeof`, `alignof`,
`is_copy_constructible_v`, `is_move_constructible_v`. -/
structure CType where
  size : Nat
  alignment : Nat
  hasCopyCtor : Bool
  hasMoveCtor : Bool
deriving DecidableEq

/-- The ambient set of C++ classes: per-type traits and the inheritance
relation; `isBaseOf b d = true` models `is_base_of_v<b, d>`, and a
`dynamic_cast<b*>` on an object of dynamic type `d` succeeds iff
`isBaseOf b d`. -/
structure TypeEnv where
  types : TypeId → CType
  isBaseOf : TypeId → TypeId → Bool

/-- Mirror of `polymorphic_value_options` (defaults `{64, 0, true, true, true}`). -/
structure polymorphic_value_options where
  size : Nat := 64
  alignment : Nat := 0
  heap : Bool := true
  copy : Bool := true
  move : Bool := true
deriving DecidableEq

/-- A constructed C++ object: a unique identity (to track its lifetime), its
dynamic type, and its field contents collapsed to one number. -/
structure HObj where
  id : Nat
  dyn : TypeId
  val : Nat
deriving DecidableEq

/-- Which handler object currently occupies `m_handler`: the no-op
`handler_base` (empty container), `small_handler<U>`, or `big_handler<U>`. -/
inductive Handler where
  | empty
  | small (u : TypeId)
  | big (u : TypeId)
deriving DecidableEq

/-- Result of `get()`: null, a pointer into the container's own inline byte
region, or a heap address. -/
inductive Ptr where
  | null
  | inlineRegion
  | heapAddr (a : Nat)
deriving DecidableEq

/-- One `polymorphic_value` container: the installed handler plus the two
union alternatives of `data` (see module comment). -/
structure PV where
  handler : Handler
  bytesObj : Option HObj
  ptrAddr : Option Nat
deriving DecidableEq

/-- A default-constructed container: `handler_base` installed, `data()`
initializes `m_ptr(nullptr)`, the byte region holds no object. -/
def PV.init : PV := ⟨.empty, none, none⟩

/-- Global memory: the heap cells, the bump-allocation bound, the next free
object identity, and the log of destroyed object identities. -/
structure Mem where
  heap : Nat → Option HObj
  hsize : Nat
  nextId : Nat
  destroyed : List Nat

/-- Memory with nothing allocated. -/
def Mem.init : Mem := ⟨fun _ => none, 0, 0, []⟩

/-- Free the heap cell at address `a` (the `delete` run by `unique_ptr`). -/
def heapFree (a : Nat) (m : Mem) : Mem :=
  { m with heap := fun x => if x = a then none else m.heap x }

/-- Allocate a fresh heap cell holding `o` (`make_unique<U>`); returns its
address. -/
def heapAlloc (o : HObj) (m : Mem) : Nat × Mem :=
  (m.hsize,
   { m with heap := fun x => if x = m.hsize then some o else m.heap x,
            hsize := m.hsize + 1 })

/-- Record that the destructor ran on the object with identity `i`. -/
def logDestroy (i : Nat) (m : Mem) : Mem :=
  { m with destroyed := m.destroyed ++ [i] }

/-- Consume a fresh object identity. -/
def bumpId (m : Mem) : Mem := { m with nextId := m.nextId + 1 }

/-- Dispatch of `get(m_data)` through the installed handler:
`handler_base::get` returns `nullptr`; `small_handler<U>::get` returns the
address of the inline byte region (always non-null, whatever the bytes
hold); `big_handler<U>::get` returns `m_ptr.get()`. -/
def get (pv : PV) : Ptr :=
  match pv.handler with
  | .empty => .null
  | .small _ => .inlineRegion
  | .big _ =>
    match pv.ptrAddr with
    | some a => .heapAddr a
    | none => .null

/-- Mirror of `operator bool`: `get() != nullptr`. -/
def opBool (pv : PV) : Bool := get pv != Ptr.null

/-- The object reached by dereferencing `get()`: `none` when `get()` is null,
when the inline region is uninitialized, or when the heap address is stale
(the latter two are UB in C++ and unreachable from well-formed states). -/
def readObj (pv : PV) (m : Mem) : Option HObj :=
  match get pv with
  | .null => none
  | .inlineRegion => pv.bytesObj
  | .heapAddr a => m.heap a

/-- Mirror of `dynamic_cast<U*>(get())`: the stored object if its dynamic
type is `u` or derived from `u`, else null. -/
def dyncast (env : TypeEnv) (u : TypeId) (pv : PV) (m : Mem) : Option HObj :=
  match readObj pv m with
  | some o => if env.isBaseOf u o.dyn then some o else none
  | none => none

/-- Mirror of `has_value<U>()`: `dynamic_cast<const U*>(get()) != nullptr`. -/
def has_value (env : TypeEnv) (u : TypeId) (pv : PV) (m : Mem) : Bool :=
  (dyncast env u pv m).isSome

/-- Mirror of `value<U>()`: `some` stored object on success, `none` for the
thrown `bad_optional_access` ("no such value"). -/
def value (env : TypeEnv) (u : TypeId) (pv : PV) (m : Mem) : Option HObj :=
  dyncast env u pv m

/-- Dispatch of `m_handler.destroy(m_data)`: `handler_base::destroy` is a
no-op; `small_handler<U>::destroy` runs `destroy_at` on the inline region;
`big_handler<U>::destroy` runs `destroy_at(&d.m_ptr)`, i.e. the `unique_ptr`
destructor, which deletes the pointee when non-null.  Destroying records the
object's identity in the log; the cell alternative used becomes dead. -/
def destroy (pv : PV) (m : Mem) : PV × Mem :=
  match pv.handler with
  | .empty => (pv, m)
  | .small _ =>
    match pv.bytesObj with
    | some o => ({ pv with bytesObj := none }, logDestroy o.id m)
    | none => (pv, m)
  | .big _ =>
    match pv.ptrAddr with
    | some a =>
      match m.heap a with
      | some o => ({ pv with ptrAddr := none }, logDestroy o.id (heapFree a m))
      | none => ({ pv with ptrAddr := none }, m)
    | none => (pv, m)

/-- Mirror of `reset()`: `m_handler.destroy(m_data); new(&m_handler) handler_base;`. -/
def reset (pv : PV) (m : Mem) : PV × Mem :=
  let r := destroy pv m
  ({ r.1 with handler := .empty }, r.2)

/-- Dispatch of `imbue_handler`: each handler placement-news its own variant
into the destination's handler slot. -/
def imbue_handler (src dest : PV) : PV := { dest with handler := src.handler }

/-- Dispatch of `copy(dest, src)`.  `handler_base::copy` is a no-op.
`small_handler<U>::copy` and `big_handler<U>::copy` construct a new `U` from
the source object — but only under `if constexpr (is_copy_constructible_v<U>)`
with no else branch, so for a non-copy-constructible `U` the operation
silently does nothing. -/
def copy (env : TypeEnv) (h : Handler) (dest src : PV) (m : Mem) : PV × Mem :=
  match h with
  | .empty => (dest, m)
  | .small u =>
    if (env.types u).hasCopyCtor then
      match src.bytesObj with
      | some o => ({ dest with bytesObj := some ⟨m.nextId, u, o.val⟩ }, bumpId m)
      | none => (dest, m)
    else (dest, m)
  | .big u =>
    if (env.types u).hasCopyCtor then
      match src.ptrAddr with
      | some a =>
        match m.heap a with
        | some o =>
          let r := heapAlloc ⟨m.nextId, u, o.val⟩ (bumpId m)
          ({ dest with ptrAddr := some r.1 }, r.2)
        | none => (dest, m)
      | none => (dest, m)
    else (dest, m)

/-- Dispatch of `move(dest, src)`.  `small_handler<U>::move` move-constructs
a new `U` in the destination's inline region (the source object stays alive,
moved-from, until the caller resets); `big_handler<U>::move` move-constructs
the destination `unique_ptr` from the source one, stealing the pointer and
leaving the source pointer null.  Both are guarded by
`if constexpr (is_move_constructible_v<U>)` with no else branch. -/
def move (env : TypeEnv) (h : Handler) (dest src : PV) (m : Mem) :
    PV × PV × Mem :=
  match h with
  | .empty => (dest, src, m)
  | .small u =>
    if (env.types u).hasMoveCtor then
      match src.bytesObj with
      | some o => ({ dest with bytesObj := some ⟨m.nextId, u, o.val⟩ }, src, bumpId m)
      | none => (dest, src, m)
    else (dest, src, m)
  | .big u =>
    if (env.types u).hasMoveCtor then
      ({ dest with ptrAddr := src.ptrAddr }, { src with ptrAddr := none }, m)
    else (dest, src, m)

section Config

variable (env : TypeEnv) (opts : polymorphic_value_options) (t : TypeId)

/-- Mirror of the static `sbo_size` (line 64):
`Options.heap ? (Options.size >= sizeof(T) ? Options.size : 0)
             : max(Options.size, sizeof(T))`. -/
def sbo_size : Nat :=
  if opts.heap then (if (env.types t).size ≤ opts.size then opts.size else 0)
  else max opts.size (env.types t).size

/-- Mirror of the static `alignment`: `max(alignof(T), Options.alignment)`. -/
def alignmentOf : Nat := max (env.types t).alignment opts.alignment

/-- Mirror of the static `copyable`: `Options.copy && is_copy_constructible_v<T>`. -/
def copyable : Bool := opts.copy && (env.types t).hasCopyCtor

/-- Mirror of the static `movable`: `Options.move && is_move_constructible_v<T>`. -/
def movable : Bool := opts.move && (env.types t).hasMoveCtor

/-- The compile-time admission of `emplace<U>`: the `requires is_base_of_v<T, U>`
clause plus the four `static_assert`s in `emplace`. -/
def emplaceOk (u : TypeId) : Bool :=
  env.isBaseOf t u
  && (!copyable env opts t || (env.types u).hasCopyCtor)
  && (!movable env opts t || (env.types u).hasMoveCtor)
  && (opts.heap || decide ((env.types u).size ≤ sbo_size env opts t))
  && decide ((env.types u).alignment ≤ alignmentOf env opts t)

/-- The construction half of `emplace<U>` (after the initial destroy): the
placement decision `sizeof(U) <= sbo_size` picks `small_handler<U>` plus
in-place construction, or `big_handler<U>` plus `make_unique<U>`. -/
def place (u : TypeId) (payload : Nat) (pv : PV) (m : Mem) : PV × Mem :=
  if (env.types u).size ≤ sbo_size env opts t then
    (⟨.small u, some ⟨m.nextId, u, payload⟩, pv.ptrAddr⟩, bumpId m)
  else
    let r := heapAlloc ⟨m.nextId, u, payload⟩ (bumpId m)
    (⟨.big u, pv.bytesObj, some r.1⟩, r.2)

/-- Mirror of `emplace<U>(args...)`: `m_handler.destroy(m_data)` first, then
the placement decision and construction. -/
def emplace (u : TypeId) (payload : Nat) (pv : PV) (m : Mem) : PV × Mem :=
  let r := destroy pv m
  place env opts t u payload r.1 r.2

/-- Mirror of the copy constructor (`requires copyable`):
`src.m_handler.imbue_handler(m_handler); src.m_handler.copy(m_data, src.m_data);`
on a default-constructed `this`. -/
def copyCtorPV (src : PV) (m : Mem) : PV × Mem :=
  copy env src.handler (imbue_handler src PV.init) src m

/-- Mirror of the move constructor (`requires movable`): imbue, move, then
`src.reset()`.  Returns (destination, source after reset, memory). -/
def moveCtorPV (src : PV) (m : Mem) : PV × PV × Mem :=
  let r := move env src.handler (imbue_handler src PV.init) src m
  let s := reset r.2.1 r.2.2
  (r.1, s.1, s.2)

/-- Mirror of copy assignment (`requires copyable`): identity-guarded; else
destroy own content, imbue the source's handler, run its copy. -/
def copyAssign (self : Bool) (dest src : PV) (m : Mem) : PV × Mem :=
  if self then (dest, m)
  else
    let r := destroy dest m
    copy env src.handler (imbue_handler src r.1) src r.2

/-- Mirror of move assignment (`requires movable`): identity-guarded; else
destroy own content, imbue, move, then `src.reset()`.  Returns
(destination, source, memory). -/
def moveAssign (self : Bool) (dest src : PV) (m : Mem) : PV × PV × Mem :=
  if self then (dest, src, m)
  else
    let r := destroy dest m
    let mv := move env src.handler (imbue_handler src r.1) src r.2
    let s := reset mv.2.1 mv.2.2
    (mv.1, s.1, s.2)

end Config

/-- Mutation of the stored object through the container
(`pv.value<U>().field = k`): overwrite the payload of the object `get()`
reaches. -/
def setVal (pv : PV) (m : Mem) (k : Nat) : PV × Mem :=
  match get pv with
  | .null => (pv, m)
  | .inlineRegion =>
    ({ pv with bytesObj := pv.bytesObj.map fun o => { o with val := k } }, m)
  | .heapAddr a =>
    (pv, { m with heap := fun x => if x = a then (m.heap a).map (fun o => { o with val := k }) else m.heap x })

/-- Handler/cell coherence of one container: a `small_handler<U>` sits over a
constructed object of dynamic type `U` in the inline region; a
`big_handler<U>` sits over a non-null `unique_ptr` to a live heap object of
dynamic type `U` at a valid address. -/
def wfPV (pv : PV) (m : Mem) : Bool :=
  match pv.handler with
  | .empty => true
  | .small u =>
    match pv.bytesObj with
    | some o => o.dyn == u
    | none => false
  | .big u =>
    match pv.ptrAddr with
    | some a =>
      decide (a < m.hsize) &&
        (match m.heap a with
         | some o => o.dyn == u
         | none => false)
    | none => false

/-- The concrete type behind an installed non-empty handler satisfies the
capability gates that `emplace` enforced when it installed the handler. -/
def handlerCaps (env : TypeEnv) (opts : polymorphic_value_options) (t : TypeId)
    (pv : PV) : Bool :=
  match pv.handler with
  | .empty => true
  | .small u =>
    (!copyable env opts t || (env.types u).hasCopyCtor)
      && (!movable env opts t || (env.types u).hasMoveCtor)
  | .big u =>
    (!copyable env opts t || (env.types u).hasCopyCtor)
      && (!movable env opts t || (env.types u).hasMoveCtor)

/-- Two containers never own the same heap allocation. -/
def noAlias (x y : PV) : Bool :=
  match x.handler, y.handler with
  | .big _, .big _ =>
    match x.ptrAddr, y.ptrAddr with
    | some a, some b => a != b
    | _, _ => true
  | _, _ => true

/-- All the bookkeeping that makes a pair of containers a faithful picture of
two live `polymorphic_value` objects: handler/cell coherence, the capability
gates `emplace` enforced, no shared heap allocation, and the lifetime ledger
— the destroy log has no duplicates, live objects were never destroyed, the
two containers own distinct objects, and every identity ever issued is below
the allocation counter. -/
structure PairInv (env : TypeEnv) (opts : polymorphic_value_options)
    (t : TypeId) (x y : PV) (m : Mem) : Prop where
  wfX : wfPV x m = true
  wfY : wfPV y m = true
  capsX : handlerCaps env opts t x = true
  capsY : handlerCaps env opts t y = true
  aliasXY : noAlias x y = true
  nodupD : m.destroyed.Nodup
  freshX : ∀ o, readObj x m = some o → o.id ∉ m.destroyed
  freshY : ∀ o, readObj y m = some o → o.id ∉ m.destroyed
  distinctIds : ∀ ox oy, readObj x m = some ox → readObj y m = some oy →
    ox.id ≠ oy.id
  boundX : ∀ o, readObj x m = some o → o.id < m.nextId
  boundY : ∀ o, readObj y m = some o → o.id < m.nextId
  boundD : ∀ i ∈ m.destroyed, i < m.nextId

/-- A world of two containers sharing one memory, closed under the public
mutating API. -/
structure World where
  a : PV
  b : PV
  mem : Mem

/-- The initial world: two default-constructed containers over fresh memory. -/
def World.init : World := ⟨PV.init, PV.init, Mem.init⟩

/-- One public mutating operation on the two-container world: `emplace<U>`,
`reset`, copy/move assignment between the two containers, or a guarded
self-assignment. -/
inductive Op where
  | emplA (u : TypeId) (payload : Nat)
  | emplB (u : TypeId) (payload : Nat)
  | rstA
  | rstB
  | cpAB
  | cpBA
  | mvAB
  | mvBA
  | cpSelfA
  | cpSelfB
  | mvSelfA
  | mvSelfB

section Steps

variable (env : TypeEnv) (opts : polymorphic_value_options) (t : TypeId)

/-- Execute one operation.  Operations the C++ compiler rejects — `emplace`
whose `requires` clause or `static_assert`s fail, copy assignment without
`copyable`, move assignment without `movable` — cannot occur and leave the
world unchanged. -/
def step (op : Op) (w : World) : World :=
  match op with
  | .emplA u p =>
    if emplaceOk env opts t u then
      let r := emplace env opts t u p w.a w.mem
      ⟨r.1, w.b, r.2⟩
    else w
  | .emplB u p =>
    if emplaceOk env opts t u then
      let r := emplace env opts t u p w.b w.mem
      ⟨w.a, r.1, r.2⟩
    else w
  | .rstA =>
    let r := reset w.a w.mem
    ⟨r.1, w.b, r.2⟩
  | .rstB =>
    let r := reset w.b w.mem
    ⟨w.a, r.1, r.2⟩
  | .cpAB =>
    if copyable env opts t then
      let r := copyAssign env false w.b w.a w.mem
      ⟨w.a, r.1, r.2⟩
    else w
  | .cpBA =>
    if copyable env opts t then
      let r := copyAssign env false w.a w.b w.mem
      ⟨r.1, w.b, r.2⟩
    else w
  | .mvAB =>
    if movable env opts t then
      let r := moveAssign env false w.b w.a w.mem
      ⟨r.2.1, r.1, r.2.2⟩
    else w
  | .mvBA =>
    if movable env opts t then
      let r := moveAssign env false w.a w.b w.mem
      ⟨r.1, r.2.1, r.2.2⟩
    else w
  | .cpSelfA =>
    if copyable env opts t then
      let r := copyAssign env true w.a w.a w.mem
      ⟨r.1, w.b, r.2⟩
    else w
  | .cpSelfB =>
    if copyable env opts t then
      let r := copyAssign env true w.b w.b w.mem
      ⟨w.a, r.1, r.2⟩
    else w
  | .mvSelfA =>
    if movable env opts t then
      let r := moveAssign env true w.a w.a w.mem
      ⟨r.1, w.b, r.2.2⟩
    else w
  | .mvSelfB =>
    if movable env opts t then
      let r := moveAssign env true w.b w.b w.mem
      ⟨w.a, r.1, r.2.2⟩
    else w

/-- Execute a sequence of operations, oldest first. -/
def run (ops : List Op) (w : World) : World :=
  match ops with
  | [] => w
  | op :: rest => run rest (step env opts t op w)

end Steps

/-- What `m_handler.destroy(m_data)` does to a coherent container: the
handler stays, the reached object is gone, allocation counters are
untouched, and exactly the identity of the object that was reachable is
appended to the destroy log. -/
lemma destroy_spec (x : PV) (m : Mem) (hwf : wfPV x m = true) :
    (destroy x m).1.handler = x.handler ∧
    readObj (destroy x m).1 (destroy x m).2 = none ∧
    (destroy x m).2.nextId = m.nextId ∧
    (destroy x m).2.hsize = m.hsize ∧
    (destroy x m).2.destroyed
      = m.destroyed ++ ((readObj x m).map HObj.id).toList := by
  obtain ⟨hx, bx, px⟩ := x
  cases hx with
  | empty => simp [destroy, readObj, get]
  | small u =>
    cases bx with
    | none => simp [wfPV] at hwf
    | some o => simp [destroy, readObj, get, logDestroy]
  | big u =>
    cases px with
    | none => simp [wfPV] at hwf
    | some a =>
      cases hh : m.heap a with
      | none => simp [wfPV, hh] at hwf
      | some o => simp [destroy, readObj, get, logDestroy, heapFree, hh]

/-- Destroying one container does not disturb what the other container
reaches, nor its coherence, as long as the two own no common heap cell. -/
lemma destroy_frame (x y : PV) (m : Mem) (hal : noAlias x y = true) :
    readObj y (destroy x m).2 = readObj y m ∧
    wfPV y (destroy x m).2 = wfPV y m := by
  obtain ⟨hx, bx, px⟩ := x
  obtain ⟨hy, yb, py⟩ := y
  cases hx with
  | empty => simp [destroy]
  | small u =>
    cases bx with
    | none => simp [destroy]
    | some o =>
      cases hy <;> cases py <;>
        simp [destroy, readObj, get, wfPV, logDestroy]
  | big u =>
    cases px with
    | none => simp [destroy]
    | some a =>
      cases hh : m.heap a with
      | none =>
        cases hy <;> cases py <;>
          simp [destroy, readObj, get, wfPV, hh]
      | some o =>
        cases hy with
        | empty => simp [destroy, readObj, get, wfPV, logDestroy, heapFree, hh]
        | small v =>
          simp [destroy, readObj, get, wfPV, logDestroy, heapFree, hh]
        | big v =>
          cases py with
          | none => simp [destroy, readObj, get, wfPV, logDestroy, heapFree, hh]
          | some b =>
            have hab : a ≠ b := by
              simpa [noAlias] using hal
            simp [destroy, readObj, get, wfPV, logDestroy, heapFree, hh,
              Ne.symm hab]

/-- What the construction half of `emplace<U>` produces: a coherent
container holding a freshly-identified object of dynamic type `U` with the
requested contents, one identity consumed, nothing logged as destroyed, and
the heap only growing. -/
lemma place_spec (env : TypeEnv) (opts : polymorphic_value_options)
    (t : TypeId) (u : TypeId) (p : Nat) (pv : PV) (m : Mem) :
    (place env opts t u p pv m).1.handler
      = (if (env.types u).size ≤ sbo_size env opts t then Handler.small u
         else Handler.big u) ∧
    readObj (place env opts t u p pv m).1 (place env opts t u p pv m).2
      = some ⟨m.nextId, u, p⟩ ∧
    wfPV (place env opts t u p pv m).1 (place env opts t u p pv m).2 = true ∧
    (place env opts t u p pv m).2.nextId = m.nextId + 1 ∧
    (place env opts t u p pv m).2.destroyed = m.destroyed ∧
    m.hsize ≤ (place env opts t u p pv m).2.hsize := by
  by_cases hs : (env.types u).size ≤ sbo_size env opts t <;>
    simp [place, hs, readObj, get, wfPV, heapAlloc, bumpId]

/-- Construction in one container neither moves what the other reaches nor
breaks its coherence or the no-aliasing of the pair. -/
lemma place_frame (env : TypeEnv) (opts : polymorphic_value_options)
    (t : TypeId) (u : TypeId) (p : Nat) (pv y : PV) (m : Mem)
    (hwfy : wfPV y m = true) :
    readObj y (place env opts t u p pv m).2 = readObj y m ∧
    wfPV y (place env opts t u p pv m).2 = true ∧
    noAlias (place env opts t u p pv m).1 y = true := by
  obtain ⟨hy, yb, py⟩ := y
  by_cases hs : (env.types u).size ≤ sbo_size env opts t
  · cases hy <;> cases py <;>
      simp_all [place, hs, readObj, get, wfPV, noAlias, heapAlloc, bumpId]
  · cases hy with
    | empty => simp [place, hs, readObj, get, noAlias, wfPV, heapAlloc, bumpId]
    | small v =>
      simp_all [place, hs, readObj, get, noAlias, wfPV, heapAlloc, bumpId]
    | big v =>
      cases py with
      | none => simp_all [place, hs, readObj, get, noAlias, wfPV, heapAlloc, bumpId]
      | some b =>
        simp only [wfPV, Bool.and_eq_true, decide_eq_true_eq] at hwfy
        have hb2 : b ≠ m.hsize := Nat.ne_of_lt hwfy.1
        simp [place, hs, readObj, get, noAlias, wfPV, heapAlloc, bumpId,
          hb2, Ne.symm hb2, Nat.lt_succ_of_lt hwfy.1, hwfy.2]

/-- The pair invariant is symmetric in the two containers. -/
lemma pairInv_comm {env : TypeEnv} {opts : polymorphic_value_options}
    {t : TypeId} {x y : PV} {m : Mem} (h : PairInv env opts t x y m) :
    PairInv env opts t y x m := by
  obtain ⟨wfX, wfY, capsX, capsY, hal, nodupD, freshX, freshY, dIds, bX, bY, bD⟩ := h
  refine ⟨wfY, wfX, capsY, capsX, ?_, nodupD, freshY, freshX,
    fun oy ox hy hx => (dIds ox oy hx hy).symm, bY, bX, bD⟩
  obtain ⟨hx, bx, px⟩ := x
  obtain ⟨hy, yb, py⟩ := y
  cases hx <;> cases hy <;> cases px <;> cases py <;>
    simp_all [noAlias, bne] <;> omega

/-- `emplace<U>` preserves the pair invariant (its compile-time admission
`emplaceOk` supplies the capability facts for the freshly installed
handler). -/
lemma emplace_pres {env : TypeEnv} {opts : polymorphic_value_options}
    {t u : TypeId} {p : Nat} {x y : PV} {m : Mem}
    (hok : emplaceOk env opts t u = true) (h : PairInv env opts t x y m) :
    PairInv env opts t (emplace env opts t u p x m).1 y
      (emplace env opts t u p x m).2 := by
  obtain ⟨wfX, wfY, capsX, capsY, hal, nodupD, freshX, freshY, dIds, bX, bY, bD⟩ := h
  obtain ⟨hd1, hd2, hd3, hd4, hd5⟩ := destroy_spec x m wfX
  obtain ⟨hf1, hf2⟩ := destroy_frame x y m hal
  have wfY' : wfPV y (destroy x m).2 = true := by rw [hf2]; exact wfY
  obtain ⟨hp1, hp2, hp3, hp4, hp5, hp6⟩ :=
    place_spec env opts t u p (destroy x m).1 (destroy x m).2
  obtain ⟨hq1, hq2, hq3⟩ :=
    place_frame env opts t u p (destroy x m).1 y (destroy x m).2 wfY'
  have he : emplace env opts t u p x m
      = place env opts t u p (destroy x m).1 (destroy x m).2 := rfl
  rw [he]
  simp only [emplaceOk, Bool.and_eq_true] at hok
  have hcapU : (!copyable env opts t || (env.types u).hasCopyCtor) = true :=
    hok.1.1.1.2
  have hmovU : (!movable env opts t || (env.types u).hasMoveCtor) = true :=
    hok.1.1.2
  -- the destroy log after the whole emplace
  have hdlog : (place env opts t u p (destroy x m).1 (destroy x m).2).2.destroyed
      = m.destroyed ++ ((readObj x m).map HObj.id).toList := by rw [hp5, hd5]
  have hnid : (place env opts t u p (destroy x m).1 (destroy x m).2).2.nextId
      = m.nextId + 1 := by rw [hp4, hd3]
  refine ⟨hp3, hq2, ?_, capsY, hq3, ?_, ?_, ?_, ?_, ?_, ?_, ?_⟩
  · -- capabilities of the new handler
    by_cases hs : (env.types u).size ≤ sbo_size env opts t <;>
      simp [handlerCaps, hp1, hs, hcapU, hmovU]
  · -- the destroy log stays duplicate-free
    rw [hdlog]
    cases hro : readObj x m with
    | none => simpa using nodupD
    | some o =>
      have hfo := freshX o hro
      simp [List.nodup_append, nodupD, hfo]
  · -- the new object was never destroyed
    intro o' ho'
    rw [hp2] at ho'
    rw [hdlog]
    cases ho'
    simp only [List.mem_append, not_or]
    refine ⟨fun hmem => absurd (bD _ hmem) (by simp [hd3]), ?_⟩
    cases hro : readObj x m with
    | none => simp
    | some o =>
      have := bX o hro
      simp [hd3]
      omega
  · -- the other container's object was never destroyed
    intro o' ho'
    rw [hq1, hf1] at ho'
    rw [hdlog]
    simp only [List.mem_append, not_or]
    refine ⟨freshY o' ho', ?_⟩
    cases hro : readObj x m with
    | none => simp
    | some o =>
      have := dIds o o' hro ho'
      simp
      omega
  · -- the two containers hold distinct objects
    intro ox oy hx hy
    rw [hp2] at hx
    rw [hq1, hf1] at hy
    cases hx
    have := bY oy hy
    simp [hd3]
    omega
  · -- the new object's identity is in bounds
    intro o' ho'
    rw [hp2] at ho'
    cases ho'
    simp [hnid, hd3]
  · -- the other object's identity is in bounds
    intro o' ho'
    rw [hq1, hf1] at ho'
    have := bY o' ho'
    rw [hnid]
    omega
  · -- every logged identity is in bounds
    intro i hi
    rw [hdlog] at hi
    rw [hnid]
    rcases List.mem_append.1 hi with hi | hi
    · exact Nat.lt_succ_of_lt (bD i hi)
    · cases hro : readObj x m with
      | none => rw [hro] at hi; simp at hi
      | some o =>
        rw [hro] at hi
        simp at hi
        have := bX o hro
        omega

/-- Containers read the same object through memories with the same heap. -/
lemma readObj_congr (y : PV) (m m' : Mem) (h : m'.heap = m.heap) :
    readObj y m' = readObj y m := by
  unfold readObj
  cases get y <;> simp [h]

/-- Coherence only looks at the heap and the allocation bound. -/
lemma wfPV_congr (y : PV) (m m' : Mem) (hh : m'.heap = m.heap)
    (hs : m'.hsize = m.hsize) : wfPV y m' = wfPV y m := by
  obtain ⟨hy, yb, py⟩ := y
  cases hy <;> cases yb <;> cases py <;> simp [wfPV, hh, hs]

/-- Membership in the identity list of what a container reaches. -/
lemma mem_destroyIds {x : PV} {m : Mem} {i : Nat} :
    i ∈ ((readObj x m).map HObj.id).toList
      ↔ ∃ o, readObj x m = some o ∧ o.id = i := by
  cases readObj x m <;> simp [eq_comm]

/-- Appending the identity of a never-destroyed reachable object keeps the
destroy log duplicate-free. -/
lemma nodup_after_destroy {x : PV} {m : Mem} (hnd : m.destroyed.Nodup)
    (hfr : ∀ o, readObj x m = some o → o.id ∉ m.destroyed) :
    (m.destroyed ++ ((readObj x m).map HObj.id).toList).Nodup := by
  cases hro : readObj x m with
  | none => simpa using hnd
  | some o =>
    have := hfr o hro
    simp [List.nodup_append, hnd, this]

/-- `reset()` preserves the pair invariant. -/
lemma reset_pres {env : TypeEnv} {opts : polymorphic_value_options}
    {t : TypeId} {x y : PV} {m : Mem} (h : PairInv env opts t x y m) :
    PairInv env opts t (reset x m).1 y (reset x m).2 := by
  obtain ⟨wfX, wfY, capsX, capsY, hal, nodupD, freshX, freshY, dIds, bX, bY, bD⟩ := h
  obtain ⟨hd1, hd2, hd3, hd4, hd5⟩ := destroy_spec x m wfX
  obtain ⟨hf1, hf2⟩ := destroy_frame x y m hal
  have hre : reset x m
      = ({ (destroy x m).1 with handler := .empty }, (destroy x m).2) := rfl
  rw [hre]
  have hrnone : readObj { (destroy x m).1 with handler := Handler.empty }
      (destroy x m).2 = none := by simp [readObj, get]
  refine ⟨by simp [wfPV], by rw [hf2]; exact wfY, by simp [handlerCaps],
    capsY, by simp [noAlias], ?_, ?_, ?_, ?_, ?_, ?_, ?_⟩
  · rw [hd5]; exact nodup_after_destroy nodupD freshX
  · intro o ho; rw [hrnone] at ho; cases ho
  · intro o ho
    rw [hf1] at ho
    rw [hd5]
    simp only [List.mem_append, not_or]
    refine ⟨freshY o ho, ?_⟩
    rw [mem_destroyIds]
    rintro ⟨ox, hox, hid⟩
    exact dIds ox o hox ho hid
  · intro ox oy hox; rw [hrnone] at hox; cases hox
  · intro o ho; rw [hrnone] at ho; cases ho
  · intro o ho; rw [hf1] at ho; rw [hd3]; exact bY o ho
  · intro i hi
    rw [hd5] at hi
    rw [hd3]
    rcases List.mem_append.1 hi with hi | hi
    · exact bD i hi
    · rcases mem_destroyIds.1 hi with ⟨o, ho, hid⟩
      cases hid
      exact bX o ho

/-- Copy assignment between two distinct live containers preserves the pair
invariant (`copyable` is the `requires` clause that makes the operator
exist). -/
lemma copyAssign_pres {env : TypeEnv} {opts : polymorphic_value_options}
    {t : TypeId} {x y : PV} {m : Mem}
    (hcp : copyable env opts t = true) (h : PairInv env opts t x y m) :
    PairInv env opts t (copyAssign env false x y m).1 y
      (copyAssign env false x y m).2 := by
  obtain ⟨wfX, wfY, capsX, capsY, hal, nodupD, freshX, freshY, dIds, bX, bY, bD⟩ := h
  obtain ⟨hd1, hd2, hd3, hd4, hd5⟩ := destroy_spec x m wfX
  obtain ⟨hf1, hf2⟩ := destroy_frame x y m hal
  have hca : copyAssign env false x y m
      = copy env y.handler (imbue_handler y (destroy x m).1) y (destroy x m).2 :=
    rfl
  rw [hca]
  have hnodup1 : (destroy x m).2.destroyed.Nodup := by
    rw [hd5]; exact nodup_after_destroy nodupD freshX
  have hfreshY1 : ∀ o, readObj y (destroy x m).2 = some o →
      o.id ∉ (destroy x m).2.destroyed := by
    intro o ho
    rw [hf1] at ho
    rw [hd5]
    simp only [List.mem_append, not_or]
    refine ⟨freshY o ho, ?_⟩
    rw [mem_destroyIds]
    rintro ⟨ox, hox, hid⟩
    exact dIds ox o hox ho hid
  have hbD1 : ∀ i ∈ (destroy x m).2.destroyed, i < (destroy x m).2.nextId := by
    intro i hi
    rw [hd5] at hi
    rw [hd3]
    rcases List.mem_append.1 hi with hi | hi
    · exact bD i hi
    · rcases mem_destroyIds.1 hi with ⟨o, ho, hid⟩
      cases hid
      exact bX o ho
  obtain ⟨hy, yb, py⟩ := y
  cases hy with
  | empty =>
    refine ⟨by simp [copy, imbue_handler, wfPV], ?_, by simp [copy, imbue_handler, handlerCaps],
      capsY, by simp [copy, imbue_handler, noAlias], by simpa [copy] using hnodup1,
      ?_, ?_, ?_, ?_, ?_, ?_⟩
    · simpa [copy] using (by rw [hf2]; exact wfY)
    · intro o ho; simp [copy, imbue_handler, readObj, get] at ho
    · intro o ho
      simp only [copy] at ho ⊢
      exact hfreshY1 o ho
    · intro ox oy hox; simp [copy, imbue_handler, readObj, get] at hox
    · intro o ho; simp [copy, imbue_handler, readObj, get] at ho
    · intro o ho
      simp only [copy] at ho ⊢
      rw [hf1] at ho; rw [hd3]; exact bY o ho
    · intro i hi
      simp only [copy] at hi ⊢
      exact hbD1 i hi
  | small u =>
    have hcapU : (env.types u).hasCopyCtor = true := by
      simp [handlerCaps, hcp] at capsY
      exact capsY.1
    obtain ⟨o, hyb, hdyn⟩ : ∃ o, yb = some o ∧ o.dyn = u := by
      cases yb with
      | none => simp [wfPV] at wfY
      | some o => exact ⟨o, rfl, by simpa [wfPV] using wfY⟩
    subst hyb
    have hcc : copy env (Handler.small u)
        (imbue_handler ⟨Handler.small u, some o, py⟩ (destroy x m).1)
        ⟨Handler.small u, some o, py⟩ (destroy x m).2
        = ({ (destroy x m).1 with
              handler := Handler.small u
              bytesObj := some ⟨(destroy x m).2.nextId, u, o.val⟩ },
           bumpId (destroy x m).2) := by
      simp [copy, hcapU, imbue_handler]
    rw [hcc]
    have hrx : readObj { (destroy x m).1 with
          handler := Handler.small u
          bytesObj := some ⟨(destroy x m).2.nextId, u, o.val⟩ }
        (bumpId (destroy x m).2)
        = some ⟨(destroy x m).2.nextId, u, o.val⟩ := by
      simp [readObj, get]
    have hry : readObj ⟨Handler.small u, some o, py⟩ (bumpId (destroy x m).2)
        = some o := by
      rw [readObj_congr _ (destroy x m).2 (bumpId (destroy x m).2) rfl, hf1]
      simp [readObj, get]
    refine ⟨by simp [wfPV, hdyn], ?_, ?_, capsY, by simp [noAlias], ?_, ?_, ?_, ?_, ?_, ?_, ?_⟩
    · rw [wfPV_congr _ (destroy x m).2 (bumpId (destroy x m).2) rfl rfl, hf2]; exact wfY
    · simpa [handlerCaps] using capsY
    · simpa [bumpId] using hnodup1
    · intro o' ho'
      rw [hrx] at ho'
      cases ho'
      simp only [bumpId]
      intro hmem
      have := hbD1 _ hmem
      omega
    · intro o' ho'
      rw [hry] at ho'
      cases ho'
      simpa [bumpId] using hfreshY1 o (by rw [hf1]; simp [readObj, get])
    · intro ox oy hox hoy
      rw [hrx] at hox
      rw [hry] at hoy
      cases hox
      cases hoy
      have : o.id < m.nextId := bY o (by simp [readObj, get])
      simp only [hd3]
      omega
    · intro o' ho'
      rw [hrx] at ho'
      cases ho'
      simp [bumpId]
    · intro o' ho'
      rw [hry] at ho'
      cases ho'
      have : o.id < m.nextId := bY o (by simp [readObj, get])
      simp only [bumpId, hd3]
      omega
    · intro i hi
      simp only [bumpId] at hi ⊢
      exact Nat.lt_succ_of_lt (hbD1 i hi)
  | big u =>
    have hcapU : (env.types u).hasCopyCtor = true := by
      simp [handlerCaps, hcp] at capsY
      exact capsY.1
    obtain ⟨a, hpy⟩ : ∃ a, py = some a := by
      cases py with
      | none => simp [wfPV] at wfY
      | some a => exact ⟨a, rfl⟩
    subst hpy
    obtain ⟨ha, o, hheap, hdyn⟩ : a < m.hsize ∧ ∃ o, m.heap a = some o ∧ o.dyn = u := by
      simp only [wfPV, Bool.and_eq_true, decide_eq_true_eq] at wfY
      cases hh : m.heap a with
      | none => rw [hh] at wfY; simp at wfY
      | some o =>
        rw [hh] at wfY
        simp at wfY
        exact ⟨wfY.1, o, rfl, wfY.2⟩
    have hro_y : readObj ⟨Handler.big u, yb, some a⟩ m = some o := by
      simp [readObj, get, hheap]
    have hheap1 : (destroy x m).2.heap a = some o := by
      have := hf1
      rw [hro_y] at this
      simpa [readObj, get] using this
    have hcc : copy env (Handler.big u)
        (imbue_handler ⟨Handler.big u, yb, some a⟩ (destroy x m).1)
        ⟨Handler.big u, yb, some a⟩ (destroy x m).2
        = ({ (destroy x m).1 with
              handler := Handler.big u
              ptrAddr := some (destroy x m).2.hsize },
           { (destroy x m).2 with
              heap := fun z => if z = (destroy x m).2.hsize
                then some ⟨(destroy x m).2.nextId, u, o.val⟩
                else (destroy x m).2.heap z
              hsize := (destroy x m).2.hsize + 1
              nextId := (destroy x m).2.nextId + 1 }) := by
      simp [copy, hcapU, imbue_handler, hheap1, heapAlloc, bumpId]
    rw [hcc]
    have hane : a ≠ (destroy x m).2.hsize := by
      rw [hd4]; exact Nat.ne_of_lt ha
    have hrx : readObj { (destroy x m).1 with
          handler := Handler.big u
          ptrAddr := some (destroy x m).2.hsize }
        ({ (destroy x m).2 with
            heap := fun z => if z = (destroy x m).2.hsize
              then some ⟨(destroy x m).2.nextId, u, o.val⟩
              else (destroy x m).2.heap z
            hsize := (destroy x m).2.hsize + 1
            nextId := (destroy x m).2.nextId + 1 })
        = some ⟨(destroy x m).2.nextId, u, o.val⟩ := by
      simp [readObj, get]
    have hry : readObj ⟨Handler.big u, yb, some a⟩
        ({ (destroy x m).2 with
            heap := fun z => if z = (destroy x m).2.hsize
              then some ⟨(destroy x m).2.nextId, u, o.val⟩
              else (destroy x m).2.heap z
            hsize := (destroy x m).2.hsize + 1
            nextId := (destroy x m).2.nextId + 1 })
        = some o := by
      simp [readObj, get, hane, hheap1]
    refine ⟨?_, ?_, ?_, capsY, ?_, ?_, ?_, ?_, ?_, ?_, ?_, ?_⟩
    · simp [wfPV, hdyn]
    · simp only [wfPV, Bool.and_eq_true, decide_eq_true_eq]
      refine ⟨by omega, ?_⟩
      simp [hane, hheap1, hdyn]
    · simpa [handlerCaps] using capsY
    · simp [noAlias, bne, Ne.symm hane]
    · simpa using hnodup1
    · intro o' ho'
      rw [hrx] at ho'
      cases ho'
      simp only []
      intro hmem
      have := hbD1 _ hmem
      omega
    · intro o' ho'
      rw [hry] at ho'
      cases ho'
      simpa using hfreshY1 o (by rw [hf1]; exact hro_y)
    · intro ox oy hox hoy
      rw [hrx] at hox
      rw [hry] at hoy
      cases hox
      cases hoy
      have : o.id < m.nextId := bY o hro_y
      simp only [hd3]
      omega
    · intro o' ho'
      rw [hrx] at ho'
      cases ho'
      simp
    · intro o' ho'
      rw [hry] at ho'
      cases ho'
      have : o.id < m.nextId := bY o hro_y
      simp only [hd3]
      omega
    · intro i hi
      simp only [] at hi ⊢
      exact Nat.lt_succ_of_lt (hbD1 i hi)

/-- Move assignment between two distinct live containers preserves the pair
invariant for the pair (destination, source-after-reset) (`movable` is the
`requires` clause that makes the operator exist). -/
lemma moveAssign_pres {env : TypeEnv} {opts : polymorphic_value_options}
    {t : TypeId} {x y : PV} {m : Mem}
    (hmv : movable env opts t = true) (h : PairInv env opts t x y m) :
    PairInv env opts t (moveAssign env false x y m).1
      (moveAssign env false x y m).2.1 (moveAssign env false x y m).2.2 := by
  obtain ⟨wfX, wfY, capsX, capsY, hal, nodupD, freshX, freshY, dIds, bX, bY, bD⟩ := h
  obtain ⟨hd1, hd2, hd3, hd4, hd5⟩ := destroy_spec x m wfX
  obtain ⟨hf1, hf2⟩ := destroy_frame x y m hal
  have hnodup1 : (destroy x m).2.destroyed.Nodup := by
    rw [hd5]; exact nodup_after_destroy nodupD freshX
  have hfreshY1 : ∀ o, readObj y (destroy x m).2 = some o →
      o.id ∉ (destroy x m).2.destroyed := by
    intro o ho
    rw [hf1] at ho
    rw [hd5]
    simp only [List.mem_append, not_or]
    refine ⟨freshY o ho, ?_⟩
    rw [mem_destroyIds]
    rintro ⟨ox, hox, hid⟩
    exact dIds ox o hox ho hid
  have hbD1 : ∀ i ∈ (destroy x m).2.destroyed, i < (destroy x m).2.nextId := by
    intro i hi
    rw [hd5] at hi
    rw [hd3]
    rcases List.mem_append.1 hi with hi | hi
    · exact bD i hi
    · rcases mem_destroyIds.1 hi with ⟨o, ho, hid⟩
      cases hid
      exact bX o ho
  obtain ⟨hy, yb, py⟩ := y
  cases hy with
  | empty =>
    have hma : moveAssign env false x ⟨Handler.empty, yb, py⟩ m
        = ({ (destroy x m).1 with handler := Handler.empty },
           ⟨Handler.empty, yb, py⟩, (destroy x m).2) := by
      simp [moveAssign, move, imbue_handler, reset, destroy]
    rw [hma]
    refine ⟨by simp [wfPV], ?_, by simp [handlerCaps], ?_, by simp [noAlias],
      hnodup1, ?_, ?_, ?_, ?_, ?_, hbD1⟩
    · rw [hf2]; exact wfY
    · simpa [handlerCaps] using capsY
    · intro o ho; simp [readObj, get] at ho
    · intro o ho
      exact hfreshY1 o ho
    · intro ox oy hox; simp [readObj, get] at hox
    · intro o ho; simp [readObj, get] at ho
    · intro o ho; rw [hf1] at ho; rw [hd3]; exact bY o ho
  | small u =>
    have hcapU : (env.types u).hasMoveCtor = true := by
      simp [handlerCaps, hmv] at capsY
      exact capsY.2
    obtain ⟨o, hyb, hdyn⟩ : ∃ o, yb = some o ∧ o.dyn = u := by
      cases yb with
      | none => simp [wfPV] at wfY
      | some o => exact ⟨o, rfl, by simpa [wfPV] using wfY⟩
    subst hyb
    have hma : moveAssign env false x ⟨Handler.small u, some o, py⟩ m
        = ({ (destroy x m).1 with
              handler := Handler.small u
              bytesObj := some ⟨(destroy x m).2.nextId, u, o.val⟩ },
           ⟨Handler.empty, none, py⟩,
           logDestroy o.id (bumpId (destroy x m).2)) := by
      simp [moveAssign, move, imbue_handler, reset, destroy, hcapU, bumpId,
        logDestroy]
    rw [hma]
    have hrx : readObj { (destroy x m).1 with
          handler := Handler.small u
          bytesObj := some ⟨(destroy x m).2.nextId, u, o.val⟩ }
        (logDestroy o.id (bumpId (destroy x m).2))
        = some ⟨(destroy x m).2.nextId, u, o.val⟩ := by
      simp [readObj, get]
    have hoY : readObj ⟨Handler.small u, some o, py⟩ m = some o := by
      simp [readObj, get]
    have hoid : o.id < m.nextId := bY o hoY
    refine ⟨by simp [wfPV, hdyn], by simp [wfPV], ?_, by simp [handlerCaps],
      by simp [noAlias], ?_, ?_, ?_, ?_, ?_, ?_, ?_⟩
    · simpa [handlerCaps] using capsY
    · simp only [logDestroy, bumpId]
      refine List.Nodup.append hnodup1 (by simp) ?_
      simp only [List.disjoint_singleton]
      exact hfreshY1 o (by rw [hf1]; exact hoY)
    · intro o' ho'
      rw [hrx] at ho'
      cases ho'
      simp only [logDestroy, bumpId, List.mem_append, not_or]
      constructor
      · intro hmem
        have := hbD1 _ hmem
        omega
      · simp [hd3]
        omega
    · intro o' ho'
      simp [readObj, get] at ho'
    · intro ox oy hox hoy
      simp [readObj, get] at hoy
    · intro o' ho'
      rw [hrx] at ho'
      cases ho'
      simp [logDestroy, bumpId]
    · intro o' ho'
      simp [readObj, get] at ho'
    · intro i hi
      simp only [logDestroy, bumpId, List.mem_append] at hi
      simp only [logDestroy, bumpId]
      rcases hi with hi | hi
      · exact Nat.lt_succ_of_lt (hbD1 i hi)
      · simp at hi
        cases hi
        rw [hd3]
        omega
  | big u =>
    have hcapU : (env.types u).hasMoveCtor = true := by
      simp [handlerCaps, hmv] at capsY
      exact capsY.2
    obtain ⟨a, hpy⟩ : ∃ a, py = some a := by
      cases py with
      | none => simp [wfPV] at wfY
      | some a => exact ⟨a, rfl⟩
    subst hpy
    obtain ⟨ha, o, hheap, hdyn⟩ : a < m.hsize ∧ ∃ o, m.heap a = some o ∧ o.dyn = u := by
      simp only [wfPV, Bool.and_eq_true, decide_eq_true_eq] at wfY
      cases hh : m.heap a with
      | none => rw [hh] at wfY; simp at wfY
      | some o =>
        rw [hh] at wfY
        simp at wfY
        exact ⟨wfY.1, o, rfl, wfY.2⟩
    have hro_y : readObj ⟨Handler.big u, yb, some a⟩ m = some o := by
      simp [readObj, get, hheap]
    have hheap1 : (destroy x m).2.heap a = some o := by
      have := hf1
      rw [hro_y] at this
      simpa [readObj, get] using this
    have hma : moveAssign env false x ⟨Handler.big u, yb, some a⟩ m
        = ({ (destroy x m).1 with
              handler := Handler.big u
              ptrAddr := some a },
           ⟨Handler.empty, yb, none⟩, (destroy x m).2) := by
      simp [moveAssign, move, imbue_handler, reset, destroy, hcapU]
    rw [hma]
    have hrx : readObj { (destroy x m).1 with
          handler := Handler.big u
          ptrAddr := some a } (destroy x m).2 = some o := by
      simp [readObj, get, hheap1]
    refine ⟨?_, by simp [wfPV], ?_, by simp [handlerCaps], by simp [noAlias],
      hnodup1, ?_, ?_, ?_, ?_, ?_, hbD1⟩
    · simp only [wfPV, Bool.and_eq_true, decide_eq_true_eq]
      rw [hd4]
      exact ⟨ha, by simp [hheap1, hdyn]⟩
    · simpa [handlerCaps] using capsY
    · intro o' ho'
      rw [hrx] at ho'
      cases ho'
      exact hfreshY1 o (by rw [hf1]; exact hro_y)
    · intro o' ho'
      simp [readObj, get] at ho'
    · intro ox oy hox hoy
      simp [readObj, get] at hoy
    · intro o' ho'
      rw [hrx] at ho'
      cases ho'
      rw [hd3]
      exact bY o hro_y
    · intro o' ho'
      simp [readObj, get] at ho'

/-- Every public mutating operation preserves the pair invariant. -/
lemma step_pres {env : TypeEnv} {opts : polymorphic_value_options}
    {t : TypeId} (op : Op) {w : World}
    (h : PairInv env opts t w.a w.b w.mem) :
    PairInv env opts t (step env opts t op w).a (step env opts t op w).b
      (step env opts t op w).mem := by
  cases op with
  | emplA u p =>
    by_cases hok : emplaceOk env opts t u = true
    · simpa [step, hok] using emplace_pres (p := p) hok h
    · simpa [step, hok] using h
  | emplB u p =>
    by_cases hok : emplaceOk env opts t u = true
    · simpa [step, hok] using pairInv_comm (emplace_pres (p := p) hok (pairInv_comm h))
    · simpa [step, hok] using h
  | rstA => simpa [step] using reset_pres h
  | rstB => simpa [step] using pairInv_comm (reset_pres (pairInv_comm h))
  | cpAB =>
    by_cases hcp : copyable env opts t = true
    · simpa [step, hcp] using pairInv_comm (copyAssign_pres hcp (pairInv_comm h))
    · simpa [step, hcp] using h
  | cpBA =>
    by_cases hcp : copyable env opts t = true
    · simpa [step, hcp] using copyAssign_pres hcp h
    · simpa [step, hcp] using h
  | mvAB =>
    by_cases hmv : movable env opts t = true
    · simpa [step, hmv] using pairInv_comm (moveAssign_pres hmv (pairInv_comm h))
    · simpa [step, hmv] using h
  | mvBA =>
    by_cases hmv : movable env opts t = true
    · simpa [step, hmv] using moveAssign_pres hmv h
    · simpa [step, hmv] using h
  | cpSelfA =>
    by_cases hcp : copyable env opts t = true <;>
      simpa [step, hcp, copyAssign] using h
  | cpSelfB =>
    by_cases hcp : copyable env opts t = true <;>
      simpa [step, hcp, copyAssign] using h
  | mvSelfA =>
    by_cases hmv : movable env opts t = true <;>
      simpa [step, hmv, moveAssign] using h
  | mvSelfB =>
    by_cases hmv : movable env opts t = true <;>
      simpa [step, hmv, moveAssign] using h

/-- The pair invariant is inductive along any operation sequence. -/
lemma run_pres {env : TypeEnv} {opts : polymorphic_value_options}
    {t : TypeId} (ops : List Op) {w : World}
    (h : PairInv env opts t w.a w.b w.mem) :
    PairInv env opts t (run env opts t ops w).a (run env opts t ops w).b
      (run env opts t ops w).mem := by
  induction ops generalizing w with
  | nil => simpa [run] using h
  | cons op rest ih =>
    simp only [run]
    exact ih (step_pres op h)

/-- The initial world satisfies the pair invariant. -/
lemma pairInv_init (env : TypeEnv) (opts : polymorphic_value_options)
    (t : TypeId) :
    PairInv env opts t World.init.a World.init.b World.init.mem := by
  refine ⟨rfl, rfl, rfl, rfl, rfl, List.nodup_nil, ?_, ?_, ?_, ?_, ?_, ?_⟩
  · intro o ho; simp [World.init, PV.init, Mem.init, readObj, get] at ho
  · intro o ho; simp [World.init, PV.init, Mem.init, readObj, get] at ho
  · intro ox oy hox hoy; simp [World.init, PV.init, Mem.init, readObj, get] at hox
  · intro o ho; simp [World.init, PV.init, Mem.init, readObj, get] at ho
  · intro o ho; simp [World.init, PV.init, Mem.init, readObj, get] at ho
  · intro i hi; simp [World.init, Mem.init] at hi

/-!
Concrete class environments used to evaluate the theorems on explicit
inputs.  In `envW`, type 0 is the polymorphic base (copyable and movable,
size 16); type 1 is a small copyable subtype; type 2 a large copyable
subtype; type 3 a move-only subtype (copy constructor deleted, like
`MoveOnly` in the repository's test); type 4 a subtype without a move
constructor.  Type 0 is a base of every type; every type is a base of
itself; nothing else is related.
-/

/-- Concrete class environment for witnesses (see section comment). -/
def envW : TypeEnv where
  types := fun i =>
    match i with
    | 0 => ⟨16, 8, true, true⟩
    | 1 => ⟨8, 8, true, true⟩
    | 2 => ⟨512, 8, true, true⟩
    | 3 => ⟨8, 8, false, true⟩
    | _ => ⟨8, 8, true, false⟩
  isBaseOf := fun b d => b == 0 || b == d

/-- The default options `polymorphic_value_options{}` of the source. -/
def optsW : polymorphic_value_options := {}

/-- A memory with two object identities already issued and nothing heap
allocated. -/
def memW : Mem := ⟨fun _ => none, 0, 2, []⟩

/-- C5: a container holding an object of concrete type `U = o.dyn` answers
`has_value<U>() = true`; for every subtype `V` unrelated to `U`,
`has_value<V>() = false` and `value<V>()` raises the value-absent error
(`none`, the thrown `bad_optional_access`); `value<W>()` raises exactly that
error when the dynamic type does not match `W`, otherwise returns the stored
object; and on any empty container `value<W>()` always raises it. -/
theorem spec_C5 (env : TypeEnv) (pv : PV) (m : Mem) (o : HObj)
    (ho : readObj pv m = some o)
    (hrefl : env.isBaseOf o.dyn o.dyn = true) :
    has_value env o.dyn pv m = true
    ∧ (∀ v, env.isBaseOf v o.dyn = false →
        has_value env v pv m = false ∧ value env v pv m = none)
    ∧ (∀ w, value env w pv m
        = (if env.isBaseOf w o.dyn then some o else none))
    ∧ (∀ (q : PV) (m' : Mem) w, q.handler = Handler.empty →
        value env w q m' = none) := by
  refine ⟨by simp [has_value, dyncast, ho, hrefl], ?_, ?_, ?_⟩
  · intro v hv
    constructor <;> simp [has_value, value, dyncast, ho, hv]
  · intro w
    simp [value, dyncast, ho]
  · intro q m' w hq
    simp [value, dyncast, readObj, get, hq]

/-- C5 witness: a container holding an object of type 1 at a concrete
state. -/
theorem spec_C5_witness :
    (readObj ⟨Handler.small 1, some ⟨0, 1, 42⟩, none⟩ memW = some ⟨0, 1, 42⟩
      ∧ envW.isBaseOf 1 1 = true)
    ∧ (has_value envW 1 ⟨Handler.small 1, some ⟨0, 1, 42⟩, none⟩ memW = true
      ∧ (∀ v, envW.isBaseOf v 1 = false →
          has_value envW v ⟨Handler.small 1, some ⟨0, 1, 42⟩, none⟩ memW = false
          ∧ value envW v ⟨Handler.small 1, some ⟨0, 1, 42⟩, none⟩ memW = none)
      ∧ (∀ w, value envW w ⟨Handler.small 1, some ⟨0, 1, 42⟩, none⟩ memW
          = (if envW.isBaseOf w 1 then some ⟨0, 1, 42⟩ else none))
      ∧ (∀ (q : PV) (m' : Mem) w, q.handler = Handler.empty →
          value envW w q m' = none)) :=
  ⟨⟨rfl, rfl⟩, spec_C5 envW ⟨Handler.small 1, some ⟨0, 1, 42⟩, none⟩ memW
    ⟨0, 1, 42⟩ rfl rfl⟩

/-- C8: self-assignment is a no-op: with the identity check firing
(`this == &src`), both copy assignment and move assignment return the
container's state (handler, both cell alternatives) and the memory entirely
unchanged. -/
theorem spec_C8 (env : TypeEnv) (pv : PV) (m : Mem) :
    copyAssign env true pv pv m = (pv, m)
    ∧ moveAssign env true pv pv m = (pv, pv, m) := by
  constructor <;> simp [copyAssign, moveAssign]

/-- C9: operations on an empty container are no-ops that preserve
emptiness: `get()` is null so `operator bool` is false; the destructor's
`destroy` dispatch does nothing; the empty handler's `copy` and `move` do
nothing; copy construction from an empty source yields an empty (default)
destination, and move construction moreover leaves the source empty. -/
theorem spec_C9 (env : TypeEnv) (pv : PV) (m : Mem)
    (he : pv.handler = Handler.empty) :
    get pv = Ptr.null
    ∧ opBool pv = false
    ∧ destroy pv m = (pv, m)
    ∧ (∀ (d s : PV) (m' : Mem), copy env Handler.empty d s m' = (d, m'))
    ∧ (∀ (d s : PV) (m' : Mem), move env Handler.empty d s m' = (d, s, m'))
    ∧ copyCtorPV env pv m = (PV.init, m)
    ∧ opBool (copyCtorPV env pv m).1 = false
    ∧ moveCtorPV env pv m = (PV.init, pv, m)
    ∧ opBool (moveCtorPV env pv m).2.1 = false := by
  obtain ⟨hpv, bo, po⟩ := pv
  cases he
  refine ⟨rfl, rfl, rfl, fun d s m' => rfl, fun d s m' => rfl, rfl, rfl, ?_, rfl⟩
  simp [moveCtorPV, move, imbue_handler, reset, destroy, PV.init]

/-- C9 witness: the default-constructed container. -/
theorem spec_C9_witness :
    (PV.init.handler = Handler.empty)
    ∧ (get PV.init = Ptr.null
      ∧ opBool PV.init = false
      ∧ destroy PV.init memW = (PV.init, memW)
      ∧ (∀ (d s : PV) (m' : Mem), copy envW Handler.empty d s m' = (d, m'))
      ∧ (∀ (d s : PV) (m' : Mem), move envW Handler.empty d s m' = (d, s, m'))
      ∧ copyCtorPV envW PV.init memW = (PV.init, memW)
      ∧ opBool (copyCtorPV envW PV.init memW).1 = false
      ∧ moveCtorPV envW PV.init memW = (PV.init, PV.init, memW)
      ∧ opBool (moveCtorPV envW PV.init memW).2.1 = false) :=
  ⟨rfl, spec_C9 envW PV.init memW rfl⟩

/-- C1: evaluation of the handlers' copy/move at the heterogeneous
capability mismatch.  With the base type 0 copyable, copying a container
whose `small_handler` is over the move-only type 3 does NOT raise any
runtime error: `small_handler<U>::copy`'s `if constexpr` guard has no else
branch, so the copy silently constructs nothing, returns the memory
untouched (no error state anywhere), and leaves the destination with an
installed handler over an uninitialized byte region that nevertheless
reports `operator bool = true`.  The move analogue (type 4 lacks a move
constructor) moreover destroys the source object on `src.reset()` without
ever having moved it.  This contradicts the claim's (and the repository's
own test's) expectation of a thrown capability error distinct from the
value-absent error. -/
theorem spec_C1_eval :
    copyable envW optsW 0 = true
    ∧ (envW.types 3).hasCopyCtor = false
    ∧ copyCtorPV envW ⟨Handler.small 3, some ⟨0, 3, 42⟩, none⟩ memW
        = (⟨Handler.small 3, none, none⟩, memW)
    ∧ opBool (copyCtorPV envW ⟨Handler.small 3, some ⟨0, 3, 42⟩, none⟩ memW).1
        = true
    ∧ movable envW optsW 0 = true
    ∧ (envW.types 4).hasMoveCtor = false
    ∧ moveCtorPV envW ⟨Handler.small 4, some ⟨1, 4, 7⟩, none⟩ memW
        = (⟨Handler.small 4, none, none⟩, ⟨Handler.empty, none, none⟩,
           logDestroy 1 memW)
    ∧ opBool (moveCtorPV envW ⟨Handler.small 4, some ⟨1, 4, 7⟩, none⟩ memW).1
        = true :=
  ⟨rfl, rfl, rfl, rfl, rfl, rfl, rfl, rfl⟩

/-- Modelled from the spec's words for claim C2 (refinement comparison, not
from the source): the inline capacity "adjusted upward to be at least
sizeof(base type)" when heap is allowed and "upward to at least sizeof(U)"
when heap is disallowed. -/
def claimC2Capacity (env : TypeEnv) (opts : polymorphic_value_options)
    (t u : TypeId) : Nat :=
  if opts.heap then max opts.size (env.types t).size
  else max opts.size (env.types u).size

/-- Modelled from the spec's words for claim C2: store inline when
`sizeof(U)` is at most the adjusted capacity. -/
def claimC2StoresInline (env : TypeEnv) (opts : polymorphic_value_options)
    (t u : TypeId) : Bool :=
  (env.types u).size ≤ claimC2Capacity env opts t u

/-- Class environment for the C2 counterexample: base type 0 of size 16,
subtype 1 of size 32, both with all constructors. -/
def envC2 : TypeEnv where
  types := fun i => match i with
    | 0 => ⟨16, 1, true, true⟩
    | _ => ⟨32, 1, true, true⟩
  isBaseOf := fun b d => b == 0 || b == d

/-- C2 counterexample.  Configured capacity 8, heap allowed, base type of
size 16: the claim's "adjusted upward to at least sizeof(base type)"
capacity is 16, so emplacing the base type itself (size 16) should store
inline — but the code's `sbo_size` is `Options.size >= sizeof(T) ? Options.size : 0`,
i.e. 0, and the object goes to the heap (`big_handler`).  With heap
disallowed and capacity 8, the claim's "adjusted upward to at least
sizeof(U)" capacity accepts the size-32 subtype inline, but the code's
`sbo_size = max(8, sizeof(T)) = 16` makes `emplace`'s `static_assert` fail
(compile-time rejection). -/
theorem spec_C2_counterexample :
    claimC2StoresInline envC2 ⟨8, 0, true, true, true⟩ 0 0 = true
    ∧ (emplace envC2 ⟨8, 0, true, true, true⟩ 0 0 7 PV.init Mem.init).1.handler
        = Handler.big 0
    ∧ claimC2StoresInline envC2 ⟨8, 0, false, true, true⟩ 0 1 = true
    ∧ emplaceOk envC2 ⟨8, 0, false, true, true⟩ 0 1 = false :=
  ⟨rfl, rfl, rfl, rfl⟩

/-- C2 (amended to the code): the effective inline capacity is
`sbo_size = heap ? (size >= sizeof(T) ? size : 0) : max(size, sizeof(T))`.
`emplace<U>` stores inline (a `small_handler`, no heap allocation) when
`sizeof(U) <= sbo_size`; otherwise it installs a `big_handler` and performs
exactly one heap allocation holding a single freshly constructed `U` (one
new cell, every other cell untouched).  With heap disallowed, every `U`
admitted by `emplace`'s `static_assert`s satisfies `sizeof(U) <= sbo_size`,
so it always fits inline. -/
theorem spec_C2 (env : TypeEnv) (opts : polymorphic_value_options)
    (t u : TypeId) (p : Nat) (pv : PV) (m : Mem) :
    ((env.types u).size ≤ sbo_size env opts t →
      (emplace env opts t u p pv m).1.handler = Handler.small u
      ∧ (emplace env opts t u p pv m).2.hsize = (destroy pv m).2.hsize)
    ∧ (¬ (env.types u).size ≤ sbo_size env opts t →
      (emplace env opts t u p pv m).1.handler = Handler.big u
      ∧ (emplace env opts t u p pv m).2.hsize = (destroy pv m).2.hsize + 1
      ∧ (emplace env opts t u p pv m).2.heap (destroy pv m).2.hsize
          = some ⟨(destroy pv m).2.nextId, u, p⟩
      ∧ (∀ j, j ≠ (destroy pv m).2.hsize →
          (emplace env opts t u p pv m).2.heap j = (destroy pv m).2.heap j))
    ∧ (opts.heap = false → emplaceOk env opts t u = true →
        (env.types u).size ≤ sbo_size env opts t) := by
  refine ⟨?_, ?_, ?_⟩
  · intro hs
    constructor <;> simp [emplace, place, hs, bumpId]
  · intro hs
    refine ⟨?_, ?_, ?_, ?_⟩
    · simp [emplace, place, hs, heapAlloc, bumpId]
    · simp [emplace, place, hs, heapAlloc, bumpId]
    · simp [emplace, place, hs, heapAlloc, bumpId]
    · intro j hj
      simp [emplace, place, hs, heapAlloc, bumpId, hj]
  · intro hheap hok
    simp only [emplaceOk, Bool.and_eq_true, Bool.or_eq_true, decide_eq_true_eq] at hok
    rcases hok.1.2 with h | h
    · rw [hheap] at h; cases h
    · exact h

/-- C2 amended-claim witness: emplacing the small type 1 inline and the big
type 2 on the heap under the default options. -/
theorem spec_C2_witness :
    ((envW.types 1).size ≤ sbo_size envW optsW 0
      ∧ (emplace envW optsW 0 1 5 PV.init Mem.init).1.handler = Handler.small 1)
    ∧ (¬ (envW.types 2).size ≤ sbo_size envW optsW 0
      ∧ (emplace envW optsW 0 2 5 PV.init Mem.init).1.handler = Handler.big 2
      ∧ (emplace envW optsW 0 2 5 PV.init Mem.init).2.hsize
          = (destroy PV.init Mem.init).2.hsize + 1) :=
  ⟨⟨by decide, ((spec_C2 envW optsW 0 1 5 PV.init Mem.init).1 (by decide)).1⟩,
   ⟨by decide, ((spec_C2 envW optsW 0 2 5 PV.init Mem.init).2.1 (by decide)).1,
    ((spec_C2 envW optsW 0 2 5 PV.init Mem.init).2.1 (by decide)).2.1⟩⟩

/-- C3: moving from a non-empty container (move construction, or move
assignment into any non-aliasing destination) leaves the source empty —
its handler is the empty `handler_base`, so `operator bool` is false and
its former object can never be destroyed through it again — while the
destination reports `operator bool = true` and reaches an object whose
dynamic type is the source object's pre-move dynamic type. -/
theorem spec_C3 (env : TypeEnv) (opts : polymorphic_value_options)
    (t : TypeId) (a : PV) (m : Mem) (o : HObj)
    (hmv : movable env opts t = true)
    (hcaps : handlerCaps env opts t a = true)
    (hwf : wfPV a m = true)
    (ho : readObj a m = some o) :
    (opBool (moveCtorPV env a m).2.1 = false
      ∧ (moveCtorPV env a m).2.1.handler = Handler.empty
      ∧ opBool (moveCtorPV env a m).1 = true
      ∧ (readObj (moveCtorPV env a m).1 (moveCtorPV env a m).2.2).map HObj.dyn
          = some o.dyn)
    ∧ (∀ dest : PV, noAlias dest a = true →
        opBool (moveAssign env false dest a m).2.1 = false
        ∧ (moveAssign env false dest a m).2.1.handler = Handler.empty
        ∧ opBool (moveAssign env false dest a m).1 = true
        ∧ (readObj (moveAssign env false dest a m).1
            (moveAssign env false dest a m).2.2).map HObj.dyn = some o.dyn) := by
  obtain ⟨ha, ba, pa⟩ := a
  cases ha with
  | empty => simp [readObj, get] at ho
  | small u =>
    have hba : ba = some o := by simpa [readObj, get] using ho
    subst hba
    have hdyn : o.dyn = u := by simpa [wfPV] using hwf
    have hmovU : (env.types u).hasMoveCtor = true := by
      simp [handlerCaps, hmv] at hcaps
      exact hcaps.2
    constructor
    · have h1 : moveCtorPV env ⟨Handler.small u, some o, pa⟩ m
          = (⟨Handler.small u, some ⟨m.nextId, u, o.val⟩, none⟩,
             ⟨Handler.empty, none, pa⟩, logDestroy o.id (bumpId m)) := by
        simp [moveCtorPV, move, imbue_handler, reset, destroy, hmovU, PV.init,
          bumpId, logDestroy]
      rw [h1]
      simp [opBool, get, readObj, hdyn]
    · intro dest hna
      have h2 : moveAssign env false dest ⟨Handler.small u, some o, pa⟩ m
          = ({ (destroy dest m).1 with
                handler := Handler.small u
                bytesObj := some ⟨(destroy dest m).2.nextId, u, o.val⟩ },
             ⟨Handler.empty, none, pa⟩,
             logDestroy o.id (bumpId (destroy dest m).2)) := by
        simp [moveAssign, move, imbue_handler, reset, destroy, hmovU,
          bumpId, logDestroy]
      rw [h2]
      simp [opBool, get, readObj, hdyn]
  | big u =>
    obtain ⟨adr, hpa⟩ : ∃ adr, pa = some adr := by
      cases pa with
      | none => simp [wfPV] at hwf
      | some adr => exact ⟨adr, rfl⟩
    subst hpa
    have hheap : m.heap adr = some o := by simpa [readObj, get] using ho
    have hdyn : o.dyn = u := by
      simp only [wfPV, Bool.and_eq_true, decide_eq_true_eq, hheap] at hwf
      simpa using hwf.2
    have hmovU : (env.types u).hasMoveCtor = true := by
      simp [handlerCaps, hmv] at hcaps
      exact hcaps.2
    constructor
    · have h1 : moveCtorPV env ⟨Handler.big u, ba, some adr⟩ m
          = (⟨Handler.big u, none, some adr⟩, ⟨Handler.empty, ba, none⟩, m) := by
        simp [moveCtorPV, move, imbue_handler, reset, destroy, hmovU, PV.init]
      rw [h1]
      simp [opBool, get, readObj, hheap, hdyn]
    · intro dest hna
      have hfr := destroy_frame dest ⟨Handler.big u, ba, some adr⟩ m hna
      have hheap1 : (destroy dest m).2.heap adr = some o := by
        have := hfr.1
        rw [ho] at this
        simpa [readObj, get] using this
      have h2 : moveAssign env false dest ⟨Handler.big u, ba, some adr⟩ m
          = ({ (destroy dest m).1 with
                handler := Handler.big u
                ptrAddr := some adr },
             ⟨Handler.empty, ba, none⟩, (destroy dest m).2) := by
        simp [moveAssign, move, imbue_handler, reset, destroy, hmovU]
      rw [h2]
      simp [opBool, get, readObj, hheap1, hdyn]

/-- C3 witness: move construction and move assignment from a container
holding a small type-1 object. -/
theorem spec_C3_witness :
    (movable envW optsW 0 = true
      ∧ handlerCaps envW optsW 0 ⟨Handler.small 1, some ⟨0, 1, 3⟩, none⟩ = true
      ∧ wfPV ⟨Handler.small 1, some ⟨0, 1, 3⟩, none⟩ memW = true
      ∧ readObj ⟨Handler.small 1, some ⟨0, 1, 3⟩, none⟩ memW = some ⟨0, 1, 3⟩)
    ∧ (opBool (moveCtorPV envW ⟨Handler.small 1, some ⟨0, 1, 3⟩, none⟩ memW).2.1
        = false
      ∧ (moveCtorPV envW ⟨Handler.small 1, some ⟨0, 1, 3⟩, none⟩ memW).2.1.handler
        = Handler.empty
      ∧ opBool (moveCtorPV envW ⟨Handler.small 1, some ⟨0, 1, 3⟩, none⟩ memW).1
        = true
      ∧ (readObj (moveCtorPV envW ⟨Handler.small 1, some ⟨0, 1, 3⟩, none⟩ memW).1
          (moveCtorPV envW ⟨Handler.small 1, some ⟨0, 1, 3⟩, none⟩ memW).2.2).map
            HObj.dyn = some 1) :=
  ⟨⟨by decide, by decide, by decide, rfl⟩,
   ((spec_C3 envW optsW 0 ⟨Handler.small 1, some ⟨0, 1, 3⟩, none⟩ memW ⟨0, 1, 3⟩
     (by decide) (by decide) (by decide) rfl).1)⟩

/-- Destroying never changes the allocation bound or the identity counter,
whatever the state of the container. -/
lemma destroy_counters (x : PV) (m : Mem) :
    (destroy x m).2.hsize = m.hsize ∧ (destroy x m).2.nextId = m.nextId := by
  obtain ⟨hx, bx, px⟩ := x
  cases hx with
  | empty => exact ⟨rfl, rfl⟩
  | small u => cases bx <;> simp [destroy, logDestroy]
  | big u =>
    cases px with
    | none => exact ⟨rfl, rfl⟩
    | some a => cases hh : m.heap a <;> simp [destroy, logDestroy, heapFree, hh]

/-- C4: copying a container — through the copy constructor, or through copy
assignment `b = a` into any non-aliasing destination (whose prior content is
destroyed first) — yields a destination whose `value<U>()` agrees field-wise
with the source's, and the two containers own independent objects:
subsequently overwriting the copy's object leaves the source's object —
identity, dynamic type and fields — entirely unchanged, while the copy
holds the new contents. -/
theorem spec_C4 (env : TypeEnv) (opts : polymorphic_value_options)
    (t : TypeId) (a : PV) (m : Mem) (o : HObj)
    (hcp : copyable env opts t = true)
    (hcaps : handlerCaps env opts t a = true)
    (hwf : wfPV a m = true)
    (ho : readObj a m = some o)
    (hrefl : env.isBaseOf o.dyn o.dyn = true) :
    ((value env o.dyn (copyCtorPV env a m).1 (copyCtorPV env a m).2).map HObj.val
        = some o.val)
    ∧ ((value env o.dyn a (copyCtorPV env a m).2).map HObj.val = some o.val)
    ∧ (∀ k,
        readObj a (setVal (copyCtorPV env a m).1 (copyCtorPV env a m).2 k).2
          = some o
        ∧ (readObj (setVal (copyCtorPV env a m).1 (copyCtorPV env a m).2 k).1
            (setVal (copyCtorPV env a m).1 (copyCtorPV env a m).2 k).2).map
              HObj.val = some k)
    ∧ (∀ dest : PV, noAlias dest a = true →
        ((value env o.dyn (copyAssign env false dest a m).1
            (copyAssign env false dest a m).2).map HObj.val = some o.val)
        ∧ ((value env o.dyn a (copyAssign env false dest a m).2).map HObj.val
            = some o.val)
        ∧ (∀ k,
            readObj a (setVal (copyAssign env false dest a m).1
                (copyAssign env false dest a m).2 k).2 = some o
            ∧ (readObj (setVal (copyAssign env false dest a m).1
                  (copyAssign env false dest a m).2 k).1
                (setVal (copyAssign env false dest a m).1
                  (copyAssign env false dest a m).2 k).2).map HObj.val
              = some k)) := by
  obtain ⟨ha, ba, pa⟩ := a
  cases ha with
  | empty => simp [readObj, get] at ho
  | small u =>
    have hba : ba = some o := by simpa [readObj, get] using ho
    subst hba
    have hdyn : o.dyn = u := by simpa [wfPV] using hwf
    have hcapU : (env.types u).hasCopyCtor = true := by
      simp [handlerCaps, hcp] at hcaps
      exact hcaps.1
    have h1 : copyCtorPV env ⟨Handler.small u, some o, pa⟩ m
        = (⟨Handler.small u, some ⟨m.nextId, u, o.val⟩, none⟩, bumpId m) := by
      simp [copyCtorPV, copy, imbue_handler, hcapU, PV.init]
    rw [h1]
    subst hdyn
    refine ⟨?_, ?_, ?_, ?_⟩
    · simp [value, dyncast, readObj, get, hrefl]
    · simp [value, dyncast, readObj, get, hrefl]
    · intro k
      constructor <;> simp [setVal, readObj, get]
    · intro dest hna
      have h2 : copyAssign env false dest ⟨Handler.small o.dyn, some o, pa⟩ m
          = ({ (destroy dest m).1 with
                handler := Handler.small o.dyn
                bytesObj := some ⟨(destroy dest m).2.nextId, o.dyn, o.val⟩ },
             bumpId (destroy dest m).2) := by
        simp [copyAssign, copy, imbue_handler, hcapU]
      rw [h2]
      refine ⟨?_, ?_, ?_⟩
      · simp [value, dyncast, readObj, get, hrefl]
      · simp [value, dyncast, readObj, get, hrefl]
      · intro k
        constructor <;> simp [setVal, readObj, get]
  | big u =>
    obtain ⟨adr, hpa⟩ : ∃ adr, pa = some adr := by
      cases pa with
      | none => simp [wfPV] at hwf
      | some adr => exact ⟨adr, rfl⟩
    subst hpa
    have hheap : m.heap adr = some o := by simpa [readObj, get] using ho
    have hwf' : adr < m.hsize ∧ o.dyn = u := by
      simp only [wfPV, Bool.and_eq_true, decide_eq_true_eq, hheap] at hwf
      simpa using hwf
    have hcapU : (env.types u).hasCopyCtor = true := by
      simp [handlerCaps, hcp] at hcaps
      exact hcaps.1
    have hane : adr ≠ m.hsize := Nat.ne_of_lt hwf'.1
    have h1 : copyCtorPV env ⟨Handler.big u, ba, some adr⟩ m
        = (⟨Handler.big u, none, some m.hsize⟩,
           { m with
              heap := fun z => if z = m.hsize then some ⟨m.nextId, u, o.val⟩
                else m.heap z
              hsize := m.hsize + 1
              nextId := m.nextId + 1 }) := by
      simp [copyCtorPV, copy, imbue_handler, hcapU, PV.init, hheap,
        heapAlloc, bumpId]
    rw [h1]
    obtain ⟨hlt, hdyn⟩ := hwf'
    subst hdyn
    refine ⟨?_, ?_, ?_, ?_⟩
    · simp [value, dyncast, readObj, get, hrefl]
    · simp [value, dyncast, readObj, get, hane, hheap, hrefl]
    · intro k
      constructor <;> simp [setVal, readObj, get, hane, Ne.symm hane, hheap]
    · intro dest hna
      have hfr := destroy_frame dest ⟨Handler.big o.dyn, ba, some adr⟩ m hna
      have hheap1 : (destroy dest m).2.heap adr = some o := by
        have h3 := hfr.1
        rw [show readObj ⟨Handler.big o.dyn, ba, some adr⟩ m = some o from by
          simp [readObj, get, hheap]] at h3
        simpa [readObj, get] using h3
      have hhs : (destroy dest m).2.hsize = m.hsize := (destroy_counters dest m).1
      have hane2 : adr ≠ (destroy dest m).2.hsize := by
        rw [hhs]
        exact Nat.ne_of_lt hlt
      have h2 : copyAssign env false dest ⟨Handler.big o.dyn, ba, some adr⟩ m
          = ({ (destroy dest m).1 with
                handler := Handler.big o.dyn
                ptrAddr := some (destroy dest m).2.hsize },
             { (destroy dest m).2 with
                heap := fun z => if z = (destroy dest m).2.hsize
                  then some ⟨(destroy dest m).2.nextId, o.dyn, o.val⟩
                  else (destroy dest m).2.heap z
                hsize := (destroy dest m).2.hsize + 1
                nextId := (destroy dest m).2.nextId + 1 }) := by
        simp [copyAssign, copy, imbue_handler, hcapU, hheap1, heapAlloc, bumpId]
      rw [h2]
      refine ⟨?_, ?_, ?_⟩
      · simp [value, dyncast, readObj, get, hrefl]
      · simp [value, dyncast, readObj, get, hane2, hheap1, hrefl]
      · intro k
        constructor <;>
          simp [setVal, readObj, get, hane2, Ne.symm hane2, hheap1]

/-- C4 witness: copying a container holding a big type-2 object (the heap
case, where independence is the interesting half), for both copy
construction and copy assignment into an empty destination. -/
theorem spec_C4_witness :
    (copyable envW optsW 0 = true
      ∧ handlerCaps envW optsW 0 ⟨Handler.big 2, none, some 0⟩ = true
      ∧ wfPV ⟨Handler.big 2, none, some 0⟩
          ⟨fun z => if z = 0 then some ⟨0, 2, 5⟩ else none, 1, 1, []⟩ = true
      ∧ readObj ⟨Handler.big 2, none, some 0⟩
          ⟨fun z => if z = 0 then some ⟨0, 2, 5⟩ else none, 1, 1, []⟩
          = some ⟨0, 2, 5⟩
      ∧ envW.isBaseOf 2 2 = true
      ∧ noAlias PV.init ⟨Handler.big 2, none, some 0⟩ = true)
    ∧ ((value envW 2
          (copyCtorPV envW ⟨Handler.big 2, none, some 0⟩
            ⟨fun z => if z = 0 then some ⟨0, 2, 5⟩ else none, 1, 1, []⟩).1
          (copyCtorPV envW ⟨Handler.big 2, none, some 0⟩
            ⟨fun z => if z = 0 then some ⟨0, 2, 5⟩ else none, 1, 1, []⟩).2).map
            HObj.val = some 5
      ∧ (readObj ⟨Handler.big 2, none, some 0⟩
          (setVal
            (copyCtorPV envW ⟨Handler.big 2, none, some 0⟩
              ⟨fun z => if z = 0 then some ⟨0, 2, 5⟩ else none, 1, 1, []⟩).1
            (copyCtorPV envW ⟨Handler.big 2, none, some 0⟩
              ⟨fun z => if z = 0 then some ⟨0, 2, 5⟩ else none, 1, 1, []⟩).2
            99).2 = some ⟨0, 2, 5⟩)
      ∧ (value envW 2
          (copyAssign envW false PV.init ⟨Handler.big 2, none, some 0⟩
            ⟨fun z => if z = 0 then some ⟨0, 2, 5⟩ else none, 1, 1, []⟩).1
          (copyAssign envW false PV.init ⟨Handler.big 2, none, some 0⟩
            ⟨fun z => if z = 0 then some ⟨0, 2, 5⟩ else none, 1, 1, []⟩).2).map
            HObj.val = some 5
      ∧ (readObj ⟨Handler.big 2, none, some 0⟩
          (setVal
            (copyAssign envW false PV.init ⟨Handler.big 2, none, some 0⟩
              ⟨fun z => if z = 0 then some ⟨0, 2, 5⟩ else none, 1, 1, []⟩).1
            (copyAssign envW false PV.init ⟨Handler.big 2, none, some 0⟩
              ⟨fun z => if z = 0 then some ⟨0, 2, 5⟩ else none, 1, 1, []⟩).2
            77).2 = some ⟨0, 2, 5⟩)) := by
  have h := spec_C4 envW optsW 0 ⟨Handler.big 2, none, some 0⟩
    ⟨fun z => if z = 0 then some ⟨0, 2, 5⟩ else none, 1, 1, []⟩ ⟨0, 2, 5⟩
    rfl rfl (by simp [wfPV]) (by simp [readObj, get]) rfl
  exact ⟨⟨rfl, rfl, by simp [wfPV], by simp [readObj, get], rfl, rfl⟩,
    h.1, (h.2.2.1 99).1,
    (h.2.2.2 PV.init rfl).1, ((h.2.2.2 PV.init rfl).2.2 77).1⟩

/-- C10: when the effective `copyable` flag is true, `emplace`'s
`static_assert` admits only copy-constructible `U`, so for every object
installed through `emplace` the `if constexpr` guard in the handlers' copy
holds and the constructing branch runs (`small_handler` constructs into the
destination's byte region; `big_handler` allocates one fresh heap cell with
the copy); the silent no-op branch is unreachable.  The analogous statement
holds for `movable` and the handlers' move. -/
theorem spec_C10 (env : TypeEnv) (opts : polymorphic_value_options)
    (t u : TypeId) :
    (copyable env opts t = true → emplaceOk env opts t u = true →
      (env.types u).hasCopyCtor = true
      ∧ (∀ (d s : PV) (m : Mem) (o : HObj), s.bytesObj = some o →
          (copy env (Handler.small u) d s m).1.bytesObj
            = some ⟨m.nextId, u, o.val⟩)
      ∧ (∀ (d s : PV) (m : Mem) (a : Nat) (o : HObj),
          s.ptrAddr = some a → m.heap a = some o →
          (copy env (Handler.big u) d s m).1.ptrAddr = some m.hsize
          ∧ (copy env (Handler.big u) d s m).2.heap m.hsize
              = some ⟨m.nextId, u, o.val⟩))
    ∧ (movable env opts t = true → emplaceOk env opts t u = true →
      (env.types u).hasMoveCtor = true
      ∧ (∀ (d s : PV) (m : Mem) (o : HObj), s.bytesObj = some o →
          (move env (Handler.small u) d s m).1.bytesObj
            = some ⟨m.nextId, u, o.val⟩)
      ∧ (∀ (d s : PV) (m : Mem), (move env (Handler.big u) d s m).1.ptrAddr
          = s.ptrAddr)) := by
  constructor
  · intro hcp hok
    simp only [emplaceOk, Bool.and_eq_true, Bool.or_eq_true,
      Bool.not_eq_eq_eq_not, Bool.not_true] at hok
    have hc : (env.types u).hasCopyCtor = true := by
      rcases hok.1.1.1.2 with h | h
      · rw [hcp] at h; cases h
      · exact h
    refine ⟨hc, ?_, ?_⟩
    · intro d s m o ho
      simp [copy, hc, ho]
    · intro d s m a o ha ho
      constructor <;> simp [copy, hc, ha, ho, heapAlloc, bumpId]
  · intro hmv hok
    simp only [emplaceOk, Bool.and_eq_true, Bool.or_eq_true,
      Bool.not_eq_eq_eq_not, Bool.not_true] at hok
    have hc : (env.types u).hasMoveCtor = true := by
      rcases hok.1.1.2 with h | h
      · rw [hmv] at h; cases h
      · exact h
    refine ⟨hc, ?_, ?_⟩
    · intro d s m o ho
      simp [move, hc, ho]
    · intro d s m
      simp [move, hc]

/-- C7: `emplace<U'>` on a container holding an object is exactly
destroy-then-construct: it factors through `m_handler.destroy(m_data)`,
after which no object is reachable in the container (never two live objects)
and precisely the old object's identity has been appended to the destroy
log; the subsequent placement decision depends only on `sizeof(U')` against
`sbo_size` — not on the previous storage kind — and the final container
reaches exactly the one freshly constructed object. -/
theorem spec_C7 (env : TypeEnv) (opts : polymorphic_value_options)
    (t : TypeId) (uNew : TypeId) (p : Nat) (a : PV) (m : Mem) (o : HObj)
    (u : TypeId)
    (hold : a.handler = Handler.small u ∨ a.handler = Handler.big u)
    (hwf : wfPV a m = true)
    (ho : readObj a m = some o) :
    emplace env opts t uNew p a m
      = place env opts t uNew p (destroy a m).1 (destroy a m).2
    ∧ readObj (destroy a m).1 (destroy a m).2 = none
    ∧ (destroy a m).2.destroyed = m.destroyed ++ [o.id]
    ∧ (emplace env opts t uNew p a m).1.handler
        = (if (env.types uNew).size ≤ sbo_size env opts t then Handler.small uNew
           else Handler.big uNew)
    ∧ readObj (emplace env opts t uNew p a m).1 (emplace env opts t uNew p a m).2
        = some ⟨m.nextId, uNew, p⟩ := by
  obtain ⟨hd1, hd2, hd3, hd4, hd5⟩ := destroy_spec a m hwf
  obtain ⟨hp1, hp2, hp3, hp4, hp5, hp6⟩ :=
    place_spec env opts t uNew p (destroy a m).1 (destroy a m).2
  refine ⟨rfl, hd2, ?_, hp1, ?_⟩
  · rw [hd5, ho]
    rfl
  · have he : emplace env opts t uNew p a m
        = place env opts t uNew p (destroy a m).1 (destroy a m).2 := rfl
    rw [he, hp2, hd3]

/-- C7 witness: replacing a small type-1 object by a big type-2 object. -/
theorem spec_C7_witness :
    ((PV.mk (Handler.small 1) (some ⟨0, 1, 3⟩) none).handler = Handler.small 1
      ∨ (PV.mk (Handler.small 1) (some ⟨0, 1, 3⟩) none).handler = Handler.big 1)
    ∧ wfPV ⟨Handler.small 1, some ⟨0, 1, 3⟩, none⟩ memW = true
    ∧ readObj ⟨Handler.small 1, some ⟨0, 1, 3⟩, none⟩ memW = some ⟨0, 1, 3⟩
    ∧ (destroy ⟨Handler.small 1, some ⟨0, 1, 3⟩, none⟩ memW).2.destroyed
        = memW.destroyed ++ [0]
    ∧ readObj
        (emplace envW optsW 0 2 11 ⟨Handler.small 1, some ⟨0, 1, 3⟩, none⟩ memW).1
        (emplace envW optsW 0 2 11 ⟨Handler.small 1, some ⟨0, 1, 3⟩, none⟩ memW).2
        = some ⟨2, 2, 11⟩ :=
  ⟨Or.inl rfl, by decide, rfl,
   (spec_C7 envW optsW 0 2 11 ⟨Handler.small 1, some ⟨0, 1, 3⟩, none⟩ memW
     ⟨0, 1, 3⟩ 1 (Or.inl rfl) (by decide) rfl).2.2.1,
   (spec_C7 envW optsW 0 2 11 ⟨Handler.small 1, some ⟨0, 1, 3⟩, none⟩ memW
     ⟨0, 1, 3⟩ 1 (Or.inl rfl) (by decide) rfl).2.2.2.2⟩

/-- C6: `reset()` on an already-empty container leaves its entire state and
the memory unchanged, and the container still reports `operator bool =
false`; moreover, along every sequence of emplace / reset / copy- and
move-assignment / guarded self-assignment operations on two containers
starting from the default-constructed state, the log of destructor
invocations never repeats an object identity — destroy is never run twice
on the same constructed object. -/
theorem spec_C6 (env : TypeEnv) (opts : polymorphic_value_options)
    (t : TypeId) (pv : PV) (m : Mem)
    (he : pv.handler = Handler.empty) :
    (reset pv m = (pv, m) ∧ opBool (reset pv m).1 = false)
    ∧ (∀ ops : List Op,
        ((run env opts t ops World.init).mem.destroyed).Nodup) := by
  constructor
  · obtain ⟨hpv, bo, po⟩ := pv
    cases he
    exact ⟨rfl, rfl⟩
  · intro ops
    exact (run_pres ops (pairInv_init env opts t)).nodupD

/-- C6 witness: the default-constructed empty container, and the operation
alphabet at the witness configuration. -/
theorem spec_C6_witness :
    (PV.init.handler = Handler.empty)
    ∧ ((reset PV.init memW = (PV.init, memW)
        ∧ opBool (reset PV.init memW).1 = false)
      ∧ (∀ ops : List Op,
          ((run envW optsW 0 ops World.init).mem.destroyed).Nodup)) :=
  ⟨rfl, spec_C6 envW optsW 0 PV.init memW rfl⟩

/-- C10 witness: the copyable/movable base type 0 with the admitted subtype
1 under the default options; both capability conclusions evaluated. -/
theorem spec_C10_witness :
    (copyable envW optsW 0 = true ∧ movable envW optsW 0 = true
      ∧ emplaceOk envW optsW 0 1 = true)
    ∧ (envW.types 1).hasCopyCtor = true
    ∧ (envW.types 1).hasMoveCtor = true
    ∧ (copy envW (Handler.small 1) PV.init
        ⟨Handler.small 1, some ⟨0, 1, 9⟩, none⟩ memW).1.bytesObj
        = some ⟨2, 1, 9⟩ :=
  ⟨⟨by decide, by decide, by decide⟩,
   ((spec_C10 envW optsW 0 1).1 (by decide) (by decide)).1,
   ((spec_C10 envW optsW 0 1).2 (by decide) (by decide)).1,
   ((spec_C10 envW optsW 0 1).1 (by decide) (by decide)).2.1
     PV.init ⟨Handler.small 1, some ⟨0, 1, 9⟩, none⟩ memW ⟨0, 1, 9⟩ rfl⟩

end PolyVal
